import Mathlib

/-!
Verification development for the turnout service-discovery engine.

Shallow embedding of the Go sources:
  internal/discovery/service.go        (orchestrator, triangulator, isCriticalError)
  internal/discovery/types/service.go  (data model)
  internal/discovery/signals/dockerfile.go, helm.go
  internal/environment/extractors      (ClassifyEnvVar and helpers)
  the Heroku Procfile signal and the GitHub archive VFS.

Machine strings are modelled by Lean `String` via its `List Char` data;
Go's byte-length coincides with char-length on the ASCII inputs at stake,
and `strings.ToLower` / `unicode.IsUpper` agree with the ASCII versions
used here on those inputs.  Go map iteration order is unspecified; maps
are embedded as insertion-ordered association lists.
-/

/- ===== generic string utilities (ASCII models of Go strings package) ===== -/

/-- listStarts pat l: pat is a prefix of l (strings.HasPrefix on char lists). -/
def listStarts : List Char → List Char → Bool
  | [], _ => true
  | _ :: _, [] => false
  | p :: ps, c :: cs => p = c && listStarts ps cs

/-- subIn pat l: pat occurs contiguously in l (strings.Contains on char lists). -/
def subIn (pat : List Char) : List Char → Bool
  | [] => pat.isEmpty
  | c :: cs => listStarts pat (c :: cs) || subIn pat cs

/-- strings.Contains(s, pat). -/
def strContains (s pat : String) : Bool := subIn pat.data s.data

/-- strings.HasPrefix(s, pat). -/
def strStarts (s pat : String) : Bool := listStarts pat.data s.data

/-- strings.HasSuffix(s, pat). -/
def strEnds (s pat : String) : Bool := listStarts pat.data.reverse s.data.reverse

/-- strings.ToLower restricted to ASCII (all inputs considered are ASCII). -/
def lowerStr (s : String) : String := String.mk (s.data.map Char.toLower)

/-- strings.EqualFold restricted to ASCII. -/
def eqFold (a b : String) : Bool := lowerStr a = lowerStr b

/-- The six ASCII white-space characters trimmed by strings.TrimSpace. -/
def isSpaceCh (c : Char) : Bool :=
  c = ' ' || c = '\t' || c = '\n' || c = '\x0b' || c = '\x0c' || c = '\r'

/-- strings.TrimSpace (ASCII white space). -/
def trimSpace (s : String) : String :=
  String.mk (((s.data.dropWhile isSpaceCh).reverse.dropWhile isSpaceCh).reverse)

/-- Split a char list on a separator char; always returns at least one group. -/
def splitCh (sep : Char) : List Char → List (List Char)
  | [] => [[]]
  | c :: cs =>
    match splitCh sep cs with
    | [] => [[]]
    | g :: gs => if c = sep then [] :: g :: gs else (c :: g) :: gs

/-- Split at the first occurrence of a char: strings.SplitN(s, sep, 2) with a hit. -/
def splitFirstCh (sep : Char) : List Char → Option (List Char × List Char)
  | [] => none
  | c :: cs =>
    if c = sep then some ([], cs)
    else
      match splitFirstCh sep cs with
      | none => none
      | some (a, b) => some (c :: a, b)

/-- strings.Count(s, c) for a single-char pattern. -/
def countChar (s : String) (c : Char) : Nat := (s.data.filter (fun d => d = c)).length

/- ===== Go path cleaning (path.Clean / filepath.Clean on forward slashes) ===== -/

/-- One step of Go's Clean over a path segment (empty and "." vanish; ".."
backtracks over a real name, is kept when relative and nothing to pop,
and vanishes at the root when rooted). -/
def cleanStep (rooted : Bool) (acc : List (List Char)) (seg : List Char) : List (List Char) :=
  if seg = [] || seg = ['.'] then acc
  else if seg = ['.', '.'] then
    if acc ≠ [] ∧ acc.getLast? ≠ some ['.', '.'] then acc.dropLast
    else if rooted then acc
    else acc ++ [['.', '.']]
  else acc ++ [seg]

def cleanSegsGo (rooted : Bool) : List (List Char) → List (List Char) → List (List Char)
  | acc, [] => acc
  | acc, seg :: rest => cleanSegsGo rooted (cleanStep rooted acc seg) rest

def joinSegs : List (List Char) → List Char
  | [] => []
  | [s] => s
  | s :: rest => s ++ '/' :: joinSegs rest

/-- Go path.Clean / filepath.Clean (unix, forward slashes). -/
def goClean (p : String) : String :=
  if p = "" then "."
  else
    let rooted := listStarts ['/'] p.data
    let segs := cleanSegsGo rooted [] (splitCh '/' p.data)
    if rooted then String.mk ('/' :: joinSegs segs)
    else if segs = [] then "." else String.mk (joinSegs segs)

/-- Go path.Join / filepath.Join (unix) of two elements. -/
def goJoin (a b : String) : String :=
  if a = "" && b = "" then ""
  else if a = "" then goClean b
  else goClean (a ++ "/" ++ b)

/-- Go path.Base. -/
def goBase (p : String) : String :=
  if p = "" then "."
  else
    let l := p.data.reverse.dropWhile (fun c => c = '/')
    if l = [] then "/"
    else String.mk ((l.takeWhile (fun c => c ≠ '/')).reverse)

/- ===== data model (internal/discovery/types/service.go) ===== -/

inductive Network where
  | networkNone
  | networkPrivate
  | networkPublic
deriving DecidableEq, Repr

inductive Runtime where
  | runtimeContinuous
  | runtimeScheduled
deriving DecidableEq, Repr

inductive Build where
  | buildFromSource
  | buildFromImage
deriving DecidableEq, Repr

structure ConfigRef where
  type : String
  path : String
deriving DecidableEq, Repr

structure Service where
  name : String
  network : Network
  runtime : Runtime
  build : Build
  buildPath : String
  image : String
  configs : List ConfigRef
deriving DecidableEq, Repr

/-- The Go zero value of Service (iota-zero enums, empty strings, nil slice). -/
def Service.zero : Service :=
  ⟨"", .networkNone, .runtimeContinuous, .buildFromSource, "", "", []⟩

/-- The data-model invariant of the spec: from_image services carry an image,
from_source services carry a build path. -/
def serviceInvariant (s : Service) : Bool :=
  (s.build ≠ .buildFromImage || s.image ≠ "") &&
  (s.build ≠ .buildFromSource || s.buildPath ≠ "")

/- ===== triangulator (internal/discovery/service.go, triangulateServices) ===== -/

structure SWS where
  service : Service
  confidence : Int
deriving DecidableEq, Repr

structure SignalResult where
  services : List Service
  confidence : Int
deriving DecidableEq, Repr

/-- The grouping key service.BuildPath + ":" + service.Name. -/
def Service.key (s : Service) : String := s.buildPath ++ ":" ++ s.name

/-- The config dedup key config.Type + ":" + config.Path. -/
def ConfigRef.key (c : ConfigRef) : String := c.type ++ ":" ++ c.path

/-- Append a value under a key; Go map insertion, determinized to insertion order. -/
def insertGrouped : List (String × List SWS) → String → SWS → List (String × List SWS)
  | [], k, v => [(k, [v])]
  | (k', vs) :: rest, k, v =>
    if k' = k then (k', vs ++ [v]) :: rest
    else (k', vs) :: insertGrouped rest k v

def addService (m : List (String × List SWS)) (conf : Int) (s : Service) :
    List (String × List SWS) :=
  if s.buildPath = "" then m else insertGrouped m s.key ⟨s, conf⟩

def addServices (conf : Int) : List (String × List SWS) → List Service →
    List (String × List SWS)
  | m, [] => m
  | m, s :: rest => addServices conf (addService m conf s) rest

def buildMapFrom : List (String × List SWS) → List SignalResult →
    List (String × List SWS)
  | m, [] => m
  | m, r :: rest => buildMapFrom (addServices r.confidence m r.services) rest

/-- The serviceMap grouping loop of triangulateServices. -/
def buildServiceMap (results : List SignalResult) : List (String × List SWS) :=
  buildMapFrom [] results

/-- One step of the configSet deduplication: keep the first ConfigRef per key. -/
def insertConfig (acc : List ConfigRef) (c : ConfigRef) : List ConfigRef :=
  if acc.any (fun c' => c'.key = c.key) then acc else acc ++ [c]

def dedupFrom : List ConfigRef → List ConfigRef → List ConfigRef
  | acc, [] => acc
  | acc, c :: rest => dedupFrom (insertConfig acc c) rest

def dedupConfigs (l : List ConfigRef) : List ConfigRef := dedupFrom [] l

/-- The bestService / maxConfidence selection loop: first strict improvement
over the running maximum wins, starting from the zero Service at 0. -/
def pickBestFrom (b : Service) (m : Int) : List SWS → Service × Int
  | [] => (b, m)
  | sws :: rest =>
    if sws.confidence > m then pickBestFrom sws.service sws.confidence rest
    else pickBestFrom b m rest

def pickBest (l : List SWS) : Service × Int := pickBestFrom Service.zero 0 l

/-- All ConfigRefs of a group in encounter order. -/
def flatConfigs (l : List SWS) : List ConfigRef :=
  l.foldr (fun sws acc => sws.service.configs ++ acc) []

/-- Merge one build_path:name group: best service as base, all ConfigRefs
united in encounter order, deduplicated by (type, path) key. -/
def mergeGroup (l : List SWS) : Service :=
  { (pickBest l).1 with configs := dedupConfigs (flatConfigs l) }

/-- triangulateServices (internal/discovery/service.go:358): group services with
non-empty build path by build_path:name, merge each group, then append all
services without a build path unchanged. -/
def triangulateServices (results : List SignalResult) : List Service :=
  (buildServiceMap results).map (fun kv => mergeGroup kv.2) ++
    results.foldr
      (fun r acc => r.services.filter (fun s => s.buildPath = "") ++ acc) []

/-- Feed a service list back into the triangulator, each service as its own
one-element signal result rated by cf. -/
def refeed (cf : Service → Int) (l : List Service) : List SignalResult :=
  l.map (fun s => ⟨[s], cf s⟩)

/- ===== isCriticalError and the orchestrator (internal/discovery/service.go) ===== -/

/-- The message fragments isCriticalError looks for, in source order. -/
def criticalFragments : List String :=
  ["401 unauthorized", "403 forbidden", "bad credentials", "token",
   "authentication", "rate limit", "api rate limit exceeded",
   "connection refused", "timeout", "network"]

/-- isCriticalError (internal/discovery/service.go:517): substring tests on the
lowercased error message. -/
def isCriticalError (msg : String) : Bool :=
  let m := lowerStr msg
  (strContains m "401 unauthorized" || strContains m "403 forbidden" ||
    strContains m "bad credentials" || strContains m "token" ||
    strContains m "authentication") ||
  (strContains m "rate limit" || strContains m "api rate limit exceeded") ||
  (strContains m "connection refused" || strContains m "timeout" ||
    strContains m "network")

/-- Record an error into lastCriticalError: critical errors overwrite, others
are dropped. -/
def updateCrit (cur : Option String) (e : String) : Option String :=
  if isCriticalError e then some e else cur

/-- lastCriticalError after the walk phase, which records errors surfaced by
ReadDir and ObserveEntry in order (walkRepoIterative itself never fails). -/
def walkCrit (walkErrs : List String) : Option String := walkErrs.foldl updateCrit none

/-- Outcome of one signal's GenerateServices call together with its confidence. -/
structure GenOutcome where
  result : Except String (List Service)
  confidence : Int

/-- The generation loop of Discover: failed signals update lastCriticalError
when critical and are skipped, non-empty service lists are collected. -/
def genStep (acc : List SignalResult × Option String) (g : GenOutcome) :
    List SignalResult × Option String :=
  match g.result with
  | .error e => (acc.1, updateCrit acc.2 e)
  | .ok svcs => (if svcs.isEmpty then acc.1 else acc.1 ++ [⟨svcs, g.confidence⟩], acc.2)

/-- ServiceDiscovery.Discover (internal/discovery/service.go:310), with the walk
abstracted to the list of errors it surfaces and the per-signal generation
outcomes: surface lastCriticalError only when no results were collected. -/
def Discover (walkErrs : List String) (gens : List GenOutcome) :
    Except String (List Service) :=
  let rc := gens.foldl genStep ([], walkCrit walkErrs)
  match rc.2 with
  | some e =>
    if rc.1.isEmpty then
      .error ("service discovery failed with authentication or permission error: " ++ e)
    else .ok (triangulateServices rc.1)
  | none => .ok (triangulateServices rc.1)

def isErr : Except String (List Service) → Bool
  | .error _ => true
  | .ok _ => false

/-- The signal results the generation loop collects: successful outcomes with a
non-empty service list, in order. -/
def producedResults (gens : List GenOutcome) : List SignalResult :=
  gens.foldr
    (fun g acc =>
      match g.result with
      | .ok svcs => if svcs.isEmpty then acc else ⟨svcs, g.confidence⟩ :: acc
      | .error _ => acc) []

/-- lastCriticalError after folding the generation outcomes over a start value. -/
def critAfter (c : Option String) (gens : List GenOutcome) : Option String :=
  gens.foldl
    (fun cur g =>
      match g.result with
      | .error e => updateCrit cur e
      | .ok _ => cur) c

/- ===== env classification (internal/environment/extractors/interface.go) ===== -/

inductive EnvType where
  | envSecret
  | envDatabase
  | envConfig
  | envGenerated
  | envURL
  | envBoolean
  | envNumeric
  | envUnknown
deriving DecidableEq, Repr

def secretPatterns : List String :=
  ["secret", "key", "token", "password", "pass", "pwd",
   "auth", "authorization", "credential", "cred",
   "private", "priv", "cert", "certificate",
   "api_key", "apikey", "access_key", "secret_key",
   "client_secret", "client_id", "oauth",
   "bearer", "jwt", "session", "cookie",
   "salt", "hash", "signature", "signing",
   "encryption", "decrypt", "cipher",
   "webhook", "hook", "vault", "store", "secure"]

def databasePatterns : List String :=
  ["database_url", "db_url", "dsn", "connection_string",
   "postgres_url", "mysql_url", "mongodb_url", "redis_url"]

def systemEnvVars : List String :=
  ["path", "home", "user", "shell", "pwd", "lang", "term", "tmpdir",
   "ps1", "ps2", "ifs", "mail", "mailpath", "optind", "editor",
   "pager", "browser", "display", "xauthority", "ssh_auth_sock",
   "oldpwd", "shlvl", "hostname", "logname", "uid", "gid"]

/-- isURLSafeBase64: only [A-Za-z0-9_-] characters. -/
def isURLSafeBase64 (s : String) : Bool :=
  s.data.all (fun r =>
    ('A' ≤ r && r ≤ 'Z') || ('a' ≤ r && r ≤ 'z') ||
    ('0' ≤ r && r ≤ '9') || r = '-' || r = '_')

/-- hasHighEntropy: more than 50% unique characters.  The Go code compares
float64(unique)/float64(len) > 0.5, which for string lengths far below 2^52
holds exactly when 2 * unique > len. -/
def hasHighEntropy (s : String) : Bool := 2 * s.data.eraseDups.length > s.data.length

/-- containsMixedCase (unicode.IsUpper / IsLower, ASCII inputs). -/
def containsMixedCase (s : String) : Bool :=
  s.data.any Char.isUpper && s.data.any Char.isLower

/-- Digits of an integer literal; none on empty or non-digit input. -/
def natOfDigits : List Char → Option Nat
  | [] => none
  | ds =>
    if ds.all Char.isDigit then
      some (ds.foldl (fun n d => 10 * n + (d.toNat - 48)) 0)
    else none

/-- isNumeric via strconv.Atoi: optional sign, digits, value within int64. -/
def isNumeric (value : String) : Bool :=
  match value.data with
  | '+' :: ds =>
    (match natOfDigits ds with
     | some n => n ≤ 9223372036854775807
     | none => false)
  | '-' :: ds =>
    (match natOfDigits ds with
     | some n => n ≤ 9223372036854775808
     | none => false)
  | ds =>
    (match natOfDigits ds with
     | some n => n ≤ 9223372036854775807
     | none => false)

/-- looksGenerated: UUID shape, URL-safe base64, JWT shape, or long
high-entropy mixed-case value.  Go's len() counts bytes; inputs are ASCII. -/
def looksGenerated (value : String) : Bool :=
  if value.length < 8 then false
  else if value.length = 36 && countChar value '-' = 4 then true
  else if isURLSafeBase64 value && value.length ≥ 16 then true
  else if countChar value '.' = 2 && value.length > 50 then true
  else if value.length ≥ 20 && hasHighEntropy value && containsMixedCase value then true
  else false

/-- ClassifyEnvVar (internal/environment/extractors/interface.go:52). -/
def ClassifyEnvVar (name value : String) : EnvType × Bool :=
  let nameLower := lowerStr name
  if systemEnvVars.any (fun sv => nameLower = sv) then (.envUnknown, false)
  else if looksGenerated value then (.envGenerated, true)
  else if databasePatterns.any (fun p => strContains nameLower p) then (.envDatabase, true)
  else if secretPatterns.any (fun p => strContains nameLower p) then (.envSecret, true)
  else if strStarts value "http" || strContains nameLower "url" ||
      strContains nameLower "webhook" then (.envURL, false)
  else if value = "true" || value = "false" || strContains nameLower "enable" ||
      strContains nameLower "flag" then (.envBoolean, false)
  else if isNumeric value then (.envNumeric, false)
  else (.envConfig, false)

/- ===== dockerfile signal confidence (internal/discovery/signals/dockerfile.go:22) ===== -/

/-- DockerfileSignal.Confidence: the source returns 50. -/
def DockerfileSignalConfidence : Int := 50

/- ===== helm signal (internal/discovery/signals/helm.go) ===== -/

/-- The only Chart.yaml field the signal reads (chart.Name). -/
structure ChartMeta where
  name : String
deriving DecidableEq, Repr

/-- External collaborators of HelmSignal.GenerateServices: the YAML parses and
filesystem reads behind parseChartYaml, getAllImagesFromValues and the two
ingress probes are parameters of the embedding (the format parsers are
out-of-scope libraries per the spec). -/
structure HelmEnv where
  parseChart : String → Except String ChartMeta
  imagesFromValues : String → List String
  helmPublic : String → Bool

structure HelmState where
  configPaths : List String
  configDirs : List (String × String)

/-- Go map read with zero-value default. -/
def lookupStr (m : List (String × String)) (k : String) : String :=
  match m.find? (fun kv => kv.1 = k) with
  | some kv => kv.2
  | none => ""

/-- The per-Chart.yaml body of HelmSignal.GenerateServices: on parse failure a
basic from_image service with no image; on success the first extracted image,
discarding charts without one. -/
def helmServiceFor (env : HelmEnv) (st : HelmState) (configPath : String) :
    Option Service :=
  match env.parseChart configPath with
  | .error _ =>
    let buildPath := lookupStr st.configDirs configPath
    some ⟨goBase buildPath, .networkPrivate, .runtimeContinuous, .buildFromImage,
      buildPath, "", [⟨"helm", configPath⟩]⟩
  | .ok chart =>
    let buildPath := lookupStr st.configDirs configPath
    let serviceName := if chart.name ≠ "" then chart.name else goBase buildPath
    match env.imagesFromValues buildPath with
    | [] => none
    | image :: _ =>
      some ⟨serviceName,
        (if env.helmPublic buildPath then .networkPublic else .networkPrivate),
        .runtimeContinuous, .buildFromImage, buildPath, image,
        [⟨"helm", configPath⟩]⟩

/-- HelmSignal.GenerateServices (internal/discovery/signals/helm.go:42). -/
def HelmGenerateServices (env : HelmEnv) (st : HelmState) : List Service :=
  if st.configPaths = [] then []
  else st.configPaths.filterMap (helmServiceFor env st)

/- ===== Heroku Procfile signal (HerokuProcfileSignal.Discover) ===== -/

structure DirEntry where
  name : String
  isDir : Bool
deriving DecidableEq, Repr

structure SimpleFS where
  files : List (String × String)

def SimpleFS.ReadFile (fsys : SimpleFS) (p : String) : Except String String :=
  match fsys.files.find? (fun kv => kv.1 = p) with
  | some kv => .ok kv.2
  | none => .error ("file not found: " ++ p)

/-- FindFileInEntries (internal/utils/fs/files.go): first non-directory entry
whose name matches case-insensitively; empty string when absent. -/
def FindFileInEntries (dir filename : String) (entries : List DirEntry) : String :=
  match entries.find? (fun e => !e.isDir && eqFold e.name filename) with
  | some e => goJoin dir e.name
  | none => ""

/-- Go map write, determinized to insertion order with in-place overwrite. -/
def procUpsert (m : List (String × String)) (k v : String) : List (String × String) :=
  if m.any (fun kv => kv.1 = k) then
    m.map (fun kv => if kv.1 = k then (k, v) else kv)
  else m ++ [(k, v)]

def procLine (m : List (String × String)) (rawLine : String) : List (String × String) :=
  let line := trimSpace rawLine
  if line = "" || strStarts line "#" then m
  else
    match splitFirstCh ':' line.data with
    | none => m
    | some (a, b) => procUpsert m (trimSpace (String.mk a)) (trimSpace (String.mk b))

/-- parseProcfile: scan lines, skip blanks and comments, split each line at the
first colon, trim both parts. -/
def parseProcfile (content : String) : List (String × String) :=
  ((splitCh '\n' content.data).map String.mk).foldl procLine []

def determineNetworkFromProcfile (processType : String) : Network :=
  if processType = "web" then .networkPublic else .networkPrivate

def determineRuntimeFromProcfile (processType command : String) : Runtime :=
  if strContains command "cron" || strContains command "schedule" ||
      processType = "scheduler" || processType = "cron" then .runtimeScheduled
  else .runtimeContinuous

/-- HerokuProcfileSignal.Discover: find the Procfile among the entries, parse
it, and emit one from_source service per process type at the root path. -/
def HerokuProcfileDiscover (fsys : SimpleFS) (rootPath : String)
    (entries : List DirEntry) : Except String (List Service) :=
  let configPath := FindFileInEntries rootPath "Procfile" entries
  if configPath = "" then .ok []
  else
    match fsys.ReadFile configPath with
    | .error e => .error e
    | .ok content =>
      .ok ((parseProcfile content).map (fun kv =>
        ⟨kv.1, determineNetworkFromProcfile kv.1,
          determineRuntimeFromProcfile kv.1 kv.2, .buildFromSource, rootPath, "",
          [⟨"procfile", configPath⟩]⟩))

/- ===== GitHub archive VFS (GitHubFS) ===== -/

/-- GitHubFS after initialization: the parent-to-children index, the zip
central directory (file name to content, entry name list), and the
remembered initialization error if the download failed. -/
structure GitHubFS where
  basePath : String
  repoPrefix : String
  pathIndex : List (String × List String)
  zipFiles : List (String × String)
  zipEntries : List String
  initErr : Option String

/-- strings.TrimPrefix(p, "/"). -/
def trimOneSlash (p : String) : String :=
  if strStarts p "/" then String.mk (p.data.drop 1) else p

/-- The cleaned form validatePath works on. -/
def cleanedForm (p : String) : String := goClean (trimOneSlash p)

/-- GitHubFS.validatePath: clean, then reject anything containing "..", any
absolute path, and any remaining parent-directory escape. -/
def validatePath (p : String) : Except String Unit :=
  let q := cleanedForm p
  if strContains q ".." then .error ("path traversal detected: " ++ q)
  else if strStarts q "/" then .error ("absolute path not allowed: " ++ q)
  else if strStarts q "../" || q = ".." then
    .error ("parent directory access not allowed: " ++ q)
  else .ok ()

/-- GitHubFS.resolvePath: drop a leading slash and root under base_path. -/
def resolvePath (gfs : GitHubFS) (p : String) : String :=
  let p := trimOneSlash p
  if gfs.basePath ≠ "" then
    if p = "" || p = "." then gfs.basePath else gfs.basePath ++ "/" ++ p
  else p

def lookupIndex (idx : List (String × List String)) (k : String) :
    Option (List String) :=
  match idx.find? (fun kv => kv.1 = k) with
  | some kv => some kv.2
  | none => none

/-- GitHubFS.ReadFile: init, validate, resolve, then open repoPrefix+name in
the zip central directory. -/
def GitHubFS.ReadFile (gfs : GitHubFS) (name : String) : Except String String :=
  match gfs.initErr with
  | some e => .error e
  | none =>
    match validatePath name with
    | .error e => .error e
    | .ok _ =>
      let n := resolvePath gfs name
      match (gfs.zipFiles.find? (fun kv => kv.1 = gfs.repoPrefix ++ n)) with
      | some kv => .ok kv.2
      | none => .error ("file not found: " ++ n)

/-- GitHubFS.ReadDir as the sequence of yielded (entry, error) pairs: a failed
init or validation yields a single error; otherwise the children of the
resolved directory from the path index, each a lightweight entry. -/
def GitHubFS.ReadDir (gfs : GitHubFS) (name : String) :
    List (Except String DirEntry) :=
  match gfs.initErr with
  | some e => [.error e]
  | none =>
    match validatePath name with
    | .error e => [.error e]
    | .ok _ =>
      let n := resolvePath gfs name
      let n := if n = "." then "" else n
      match lookupIndex gfs.pathIndex n with
      | none => [.error ("directory not found: " ++ n)]
      | some children =>
        children.map (fun childName =>
          .ok ⟨childName,
            (lookupIndex gfs.pathIndex
              (if n = "" then childName else n ++ "/" ++ childName)).isSome⟩)

structure FileInfoM where
  name : String
  isDir : Bool
deriving DecidableEq, Repr

/-- GitHubFS.Stat: init, validate, resolve; root is a directory; otherwise scan
the zip entry names for an exact match, a trailing-slash match, or an
implicit directory, else fail. -/
def GitHubFS.Stat (gfs : GitHubFS) (name : String) : Except String FileInfoM :=
  match gfs.initErr with
  | some e => .error e
  | none =>
    match validatePath name with
    | .error e => .error e
    | .ok _ =>
      let n := resolvePath gfs name
      if name = "." || n = "" then .ok ⟨".", true⟩
      else
        let target := gfs.repoPrefix ++ n
        match gfs.zipEntries.find? (fun e => e = target) with
        | some e => .ok ⟨goBase e, strEnds e "/"⟩
        | none =>
          match gfs.zipEntries.find? (fun e => e = target ++ "/") with
          | some _ => .ok ⟨goBase n, true⟩
          | none =>
            if gfs.zipEntries.any (fun e => strStarts e (target ++ "/")) then
              .ok ⟨goBase n, true⟩
            else .error ("path not found: " ++ n)

def isErrF : Except String FileInfoM → Bool
  | .error _ => true
  | .ok _ => false

def isErrS : Except String String → Bool
  | .error _ => true
  | .ok _ => false

def isErrD : Except String DirEntry → Bool
  | .error _ => true
  | .ok _ => false

/-- A cleaned path contains a ".." segment. -/
def hasDotDotSeg (s : String) : Bool :=
  (splitCh '/' s.data).any (fun seg => seg = ['.', '.'])

/- ===== proof-level views of the triangulator state ===== -/

/-- The keys of the grouping map. -/
def keysOf (m : List (String × List SWS)) : List String := m.map Prod.fst

/-- A ConfigRef list with pairwise-distinct (type, path) keys. -/
def keyNodupC (l : List ConfigRef) : Prop := (l.map ConfigRef.key).Nodup

/-- Well-formedness of the grouping map: distinct keys, non-empty groups, every
member filed under its own service key with a non-empty build path, and the
member confidences satisfying P. -/
def MapOK (P : Int → Prop) (m : List (String × List SWS)) : Prop :=
  (keysOf m).Nodup ∧
    ∀ kv ∈ m, kv.2 ≠ [] ∧ ∀ sws ∈ kv.2,
      sws.service.key = kv.1 ∧ sws.service.buildPath ≠ "" ∧ P sws.confidence

/- ===== concrete inputs used by witnesses and counterexamples ===== -/

/-- A candidate from an explicit (confidence 95) signal at build path p. -/
def c1Explicit : Service :=
  ⟨"api", .networkPublic, .runtimeContinuous, .buildFromSource, "p", "",
    [⟨"fly", "p/fly.toml"⟩]⟩

/-- A candidate from a generic (confidence 50) signal at the same build path p
but with a different name. -/
def c1Generic : Service :=
  ⟨"pkg", .networkPrivate, .runtimeContinuous, .buildFromSource, "p", "",
    [⟨"package", "p/package.json"⟩]⟩

/-- A generic candidate sharing both build path and name with c1Explicit. -/
def c1GenericSame : Service :=
  ⟨"api", .networkPrivate, .runtimeContinuous, .buildFromSource, "p", "",
    [⟨"package", "p/package.json"⟩]⟩

def c1in : List SignalResult := [⟨[c1Explicit], 95⟩, ⟨[c1Generic], 50⟩]

def c1in2 : List SignalResult := [⟨[c1Explicit], 95⟩, ⟨[c1GenericSame], 50⟩]

def kvC1 : String × List SWS := ("p:api", [⟨c1Explicit, 95⟩, ⟨c1GenericSame, 50⟩])

def c4Content : String :=
  "web: bundle exec rails server\nworker: bundle exec rake jobs:work\ncron: rake nightly"

def c4FS : SimpleFS := ⟨[("Procfile", c4Content)]⟩

def c4Entries : List DirEntry := [⟨"Procfile", false⟩]

def c4Web : Service :=
  ⟨"web", .networkPublic, .runtimeContinuous, .buildFromSource, ".", "",
    [⟨"procfile", "Procfile"⟩]⟩

def c4Worker : Service :=
  ⟨"worker", .networkPrivate, .runtimeContinuous, .buildFromSource, ".", "",
    [⟨"procfile", "Procfile"⟩]⟩

def c4Cron : Service :=
  ⟨"cron", .networkPrivate, .runtimeScheduled, .buildFromSource, ".", "",
    [⟨"procfile", "Procfile"⟩]⟩

/-- A helm environment whose Chart.yaml fails to YAML-parse (for example a
Chart.yaml containing only a stray brace). -/
def helmFailEnv : HelmEnv :=
  ⟨fun _ => .error "error converting YAML to chart metadata", fun _ => [], fun _ => false⟩

def helmFailState : HelmState :=
  ⟨["chart/Chart.yaml"], [("chart/Chart.yaml", "chart")]⟩

/-- A small initialized archive VFS: one top-level README in acme/repo@main. -/
def gfsDemo : GitHubFS :=
  ⟨"", "acme-repo-main/", [("", ["README.md"])],
    [("acme-repo-main/README.md", "hello")],
    ["acme-repo-main/", "acme-repo-main/README.md"], none⟩

/-- A signal-result list for the idempotence witness: the three Procfile
services at the Procfile signal's confidence 85. -/
def demoResults : List SignalResult := [⟨[c4Web, c4Worker, c4Cron], 85⟩]

/- ===================== theorems ===================== -/

/- ===== substring facts behind the ".." rejection ===== -/

theorem subIn_cons (pat : List Char) (c : Char) (cs : List Char)
    (h : subIn pat cs = true) : subIn pat (c :: cs) = true := by
  simp only [subIn, h, Bool.or_true]

theorem splitCh_ne_nil (sep : Char) (l : List Char) : splitCh sep l ≠ [] := by
  cases l with
  | nil => simp [splitCh]
  | cons c cs =>
    simp only [splitCh]
    cases h : splitCh sep cs with
    | nil => simp
    | cons g gs => by_cases hc : c = sep <;> simp [hc]

theorem splitCh_head_starts (sep : Char) :
    ∀ l g gs, splitCh sep l = g :: gs → listStarts g l = true := by
  intro l
  induction l with
  | nil =>
    intro g gs h
    simp only [splitCh, List.cons.injEq] at h
    rw [← h.1]
    rfl
  | cons c cs ih =>
    intro g gs h
    cases hs : splitCh sep cs with
    | nil => exact absurd hs (splitCh_ne_nil sep cs)
    | cons g' gs' =>
      simp only [splitCh, hs] at h
      by_cases hc : c = sep
      · simp only [if_pos hc, List.cons.injEq] at h
        rw [← h.1]
        rfl
      · simp only [if_neg hc, List.cons.injEq] at h
        rw [← h.1]
        simp [listStarts, ih g' gs' hs]

theorem mem_splitCh_subIn (sep : Char) :
    ∀ l seg, seg ∈ splitCh sep l → seg ≠ [] → subIn seg l = true := by
  intro l
  induction l with
  | nil =>
    intro seg hm hne
    simp [splitCh] at hm
    exact absurd hm hne
  | cons c cs ih =>
    intro seg hm hne
    cases hs : splitCh sep cs with
    | nil => exact absurd hs (splitCh_ne_nil sep cs)
    | cons g' gs' =>
      simp only [splitCh, hs] at hm
      by_cases hc : c = sep
      · simp only [if_pos hc] at hm
        rcases List.mem_cons.mp hm with h1 | h2
        · exact absurd h1 hne
        · exact subIn_cons seg c cs (ih seg (hs ▸ h2) hne)
      · simp only [if_neg hc] at hm
        rcases List.mem_cons.mp hm with h1 | h2
        · subst h1
          have hg : listStarts (c :: g') (c :: cs) = true := by
            simp [listStarts, splitCh_head_starts sep cs g' gs' hs]
          simp [subIn, hg]
        · have : seg ∈ splitCh sep cs := by rw [hs]; exact List.mem_cons_of_mem _ h2
          exact subIn_cons seg c cs (ih seg this hne)

theorem dotdot_seg_contains (q : String) (h : hasDotDotSeg q = true) :
    strContains q ".." = true := by
  simp only [hasDotDotSeg, List.any_eq_true, decide_eq_true_eq] at h
  obtain ⟨seg, hm, he⟩ := h
  subst he
  have hsub : subIn ['.', '.'] q.data = true :=
    mem_splitCh_subIn '/' q.data _ hm (by simp)
  have hdd : (String.data "..") = ['.', '.'] := rfl
  simpa [strContains, hdd] using hsub

theorem validatePath_dotdot (p : String) (h : hasDotDotSeg (cleanedForm p) = true) :
    validatePath p = .error ("path traversal detected: " ++ cleanedForm p) := by
  have hc := dotdot_seg_contains _ h
  simp [validatePath, hc]

/-- C7: every path whose cleaned form contains a ".." segment is rejected by
the archive VFS: ReadFile and Stat return errors and ReadDir yields only an
error, never a DirEntry, so no signal can observe an entry under it. -/
theorem github_dotdot_rejected (gfs : GitHubFS) (p : String)
    (h : hasDotDotSeg (cleanedForm p) = true) :
    isErrS (gfs.ReadFile p) = true ∧ (∀ x ∈ gfs.ReadDir p, isErrD x = true) ∧
      isErrF (gfs.Stat p) = true := by
  have hv := validatePath_dotdot p h
  refine ⟨?_, ?_, ?_⟩
  · cases hi : gfs.initErr with
    | some e => simp [GitHubFS.ReadFile, hi, isErrS]
    | none => simp [GitHubFS.ReadFile, hi, hv, isErrS]
  · intro x hx
    cases hi : gfs.initErr with
    | some e =>
      simp [GitHubFS.ReadDir, hi] at hx
      simp [hx, isErrD]
    | none =>
      simp [GitHubFS.ReadDir, hi, hv] at hx
      simp [hx, isErrD]
  · cases hi : gfs.initErr with
    | some e => simp [GitHubFS.Stat, hi, isErrF]
    | none => simp [GitHubFS.Stat, hi, hv, isErrF]

theorem github_dotdot_rejected_witness :
    hasDotDotSeg (cleanedForm "a/../../b") = true ∧
      (isErrS (gfsDemo.ReadFile "a/../../b") = true ∧
        (∀ x ∈ gfsDemo.ReadDir "a/../../b", isErrD x = true) ∧
        isErrF (gfsDemo.Stat "a/../../b") = true) :=
  ⟨by decide, github_dotdot_rejected gfsDemo "a/../../b" (by decide)⟩

/-- C3: on a Chart.yaml whose contents fail to parse, HelmSignal.GenerateServices
emits a fallback service with build = from_image and an empty image, breaking
the data-model invariant the spec states. -/
theorem helm_parse_failure_breaks_invariant :
    HelmGenerateServices helmFailEnv helmFailState =
      [⟨"chart", .networkPrivate, .runtimeContinuous, .buildFromImage, "chart", "",
        [⟨"helm", "chart/Chart.yaml"⟩]⟩] ∧
    ∀ s ∈ HelmGenerateServices helmFailEnv helmFailState,
      s.build = .buildFromImage ∧ s.image = "" ∧ serviceInvariant s = false := by
  decide

/-- C4: the three-line Procfile yields exactly the web (public, continuous),
worker (private, continuous) and cron (private, scheduled) services, all
from_source at the root build path and all carrying the procfile ConfigRef,
and triangulation passes the three distinct names through unchanged. -/
theorem procfile_three_services :
    HerokuProcfileDiscover c4FS "." c4Entries = .ok [c4Web, c4Worker, c4Cron] ∧
    triangulateServices [⟨[c4Web, c4Worker, c4Cron], 85⟩] = [c4Web, c4Worker, c4Cron] := by
  constructor
  · rfl
  · decide

/-- C5 counterexample: the dockerfile signal's static confidence is not 70. -/
theorem dockerfile_confidence_not_seventy : DockerfileSignalConfidence ≠ 70 := by decide

/-- C5 amended: the dockerfile signal's static confidence self-rating is 50. -/
theorem dockerfile_confidence_fifty : DockerfileSignalConfidence = 50 := rfl

/- ===== C9: env classification of url-like names ===== -/

/-- C9 counterexample: for WEBHOOK_ENDPOINT=example.com all of the claim's
hypotheses hold — not a system variable, value not generated, no database
pattern, and the name contains none of the nine spec-enumerated secret
substrings — yet ClassifyEnvVar returns (secret, true), not (url, false),
because the code's secretPatterns list also contains "webhook" and "hook". -/
theorem classify_webhook_is_secret :
    (systemEnvVars.any (fun sv => lowerStr "WEBHOOK_ENDPOINT" = sv)) = false ∧
    looksGenerated "example.com" = false ∧
    (databasePatterns.any (fun p => strContains (lowerStr "WEBHOOK_ENDPOINT") p)) = false ∧
    (["secret", "key", "token", "password", "auth", "oauth", "jwt", "session",
        "hash"].any (fun p => strContains (lowerStr "WEBHOOK_ENDPOINT") p)) = false ∧
    strContains (lowerStr "WEBHOOK_ENDPOINT") "webhook" = true ∧
    ClassifyEnvVar "WEBHOOK_ENDPOINT" "example.com" = (.envSecret, true) ∧
    ClassifyEnvVar "WEBHOOK_ENDPOINT" "example.com" ≠ (.envURL, false) := by
  decide

/-- C9 amended: if the name is no system variable, the value does not look
generated, the name matches no database pattern and none of the code's full
secretPatterns list (which extends the spec's enumeration with webhook, hook,
store and the rest), then a value starting with http or a name containing
url or webhook classifies as (url, not sensitive). -/
theorem classify_url_not_sensitive (name value : String)
    (h1 : (systemEnvVars.any (fun sv => lowerStr name = sv)) = false)
    (h2 : looksGenerated value = false)
    (h3 : (databasePatterns.any (fun p => strContains (lowerStr name) p)) = false)
    (h4 : (secretPatterns.any (fun p => strContains (lowerStr name) p)) = false)
    (h5 : (strStarts value "http" || strContains (lowerStr name) "url" ||
      strContains (lowerStr name) "webhook") = true) :
    ClassifyEnvVar name value = (.envURL, false) := by
  simp only [ClassifyEnvVar, h1, h2, h3, h4, h5]
  simp

theorem classify_url_not_sensitive_witness :
    (systemEnvVars.any (fun sv => lowerStr "SITE_URL" = sv)) = false ∧
    looksGenerated "example.com" = false ∧
    (databasePatterns.any (fun p => strContains (lowerStr "SITE_URL") p)) = false ∧
    (secretPatterns.any (fun p => strContains (lowerStr "SITE_URL") p)) = false ∧
    (strStarts "example.com" "http" || strContains (lowerStr "SITE_URL") "url" ||
      strContains (lowerStr "SITE_URL") "webhook") = true ∧
    ClassifyEnvVar "SITE_URL" "example.com" = (.envURL, false) :=
  ⟨by decide, by decide, by decide, by decide, by decide,
    classify_url_not_sensitive "SITE_URL" "example.com" (by decide) (by decide)
      (by decide) (by decide) (by decide)⟩

/- ===== C10: the critical-error classifier ===== -/

/-- C10: isCriticalError is exactly a substring match of the listed fragments
against the lowercased error message; in particular a not-found style message
that merely mentions a token is classified critical. -/
theorem isCriticalError_substring_match :
    (∀ msg, isCriticalError msg = true ↔
      (criticalFragments.any (fun f => strContains (lowerStr msg) f)) = true) ∧
    isCriticalError "repository not found: token abc" = true := by
  constructor
  · intro msg
    simp only [isCriticalError, criticalFragments, List.any_cons, List.any_nil,
      Bool.or_false, Bool.or_assoc]
  · decide

/- ===== pickBest facts ===== -/

theorem pickBestFrom_cons_pos (sws : SWS) (rest : List SWS) (b : Service) (m : Int)
    (h : m < sws.confidence) :
    pickBestFrom b m (sws :: rest) = pickBestFrom sws.service sws.confidence rest := by
  simp [pickBestFrom, h]

theorem pickBestFrom_cons_neg (sws : SWS) (rest : List SWS) (b : Service) (m : Int)
    (h : ¬ m < sws.confidence) :
    pickBestFrom b m (sws :: rest) = pickBestFrom b m rest := by
  simp [pickBestFrom, h]

theorem pickBestFrom_cases :
    ∀ (l : List SWS) (b : Service) (m : Int),
      pickBestFrom b m l = (b, m) ∨
        ∃ sws ∈ l, pickBestFrom b m l = (sws.service, sws.confidence) := by
  intro l
  induction l with
  | nil => intro b m; left; rfl
  | cons sws rest ih =>
    intro b m
    by_cases h : m < sws.confidence
    · rcases ih sws.service sws.confidence with h1 | ⟨sws', hm, he⟩
      · right
        exact ⟨sws, List.mem_cons_self _ _, by rw [pickBestFrom_cons_pos _ _ _ _ h, h1]⟩
      · right
        exact ⟨sws', List.mem_cons_of_mem _ hm, by rw [pickBestFrom_cons_pos _ _ _ _ h, he]⟩
    · rcases ih b m with h1 | ⟨sws', hm, he⟩
      · left; rw [pickBestFrom_cons_neg _ _ _ _ h, h1]
      · right; exact ⟨sws', List.mem_cons_of_mem _ hm, by rw [pickBestFrom_cons_neg _ _ _ _ h, he]⟩

theorem pickBestFrom_ge :
    ∀ (l : List SWS) (b : Service) (m : Int),
      m ≤ (pickBestFrom b m l).2 ∧ ∀ sws ∈ l, sws.confidence ≤ (pickBestFrom b m l).2 := by
  intro l
  induction l with
  | nil => intro b m; exact ⟨le_refl m, by simp⟩
  | cons sws rest ih =>
    intro b m
    by_cases h : m < sws.confidence
    · obtain ⟨h1, h2⟩ := ih sws.service sws.confidence
      rw [pickBestFrom_cons_pos _ _ _ _ h]
      refine ⟨le_trans (le_of_lt h) h1, ?_⟩
      intro sws' hm
      rcases List.mem_cons.mp hm with he | hm'
      · subst he; exact h1
      · exact h2 sws' hm'
    · have hle : sws.confidence ≤ m := not_lt.mp h
      obtain ⟨h1, h2⟩ := ih b m
      rw [pickBestFrom_cons_neg _ _ _ _ h]
      refine ⟨h1, ?_⟩
      intro sws' hm
      rcases List.mem_cons.mp hm with he | hm'
      · subst he; exact le_trans hle h1
      · exact h2 sws' hm'

theorem pickBest_ge80 (l : List SWS) (h : ∃ sws ∈ l, (80:Int) ≤ sws.confidence) :
    ∃ sws ∈ l, pickBest l = (sws.service, sws.confidence) ∧ (80:Int) ≤ sws.confidence := by
  obtain ⟨sws0, hm0, h80⟩ := h
  rcases pickBestFrom_cases l Service.zero 0 with hz | ⟨sws, hm, he⟩
  · exfalso
    have h2 := (pickBestFrom_ge l Service.zero 0).2 sws0 hm0
    rw [hz] at h2
    simp at h2
    omega
  · refine ⟨sws, hm, he, ?_⟩
    have h2 := (pickBestFrom_ge l Service.zero 0).2 sws0 hm0
    rw [he] at h2
    simp at h2
    omega

theorem pickBest_pos_mem (l : List SWS) (h : ∃ sws ∈ l, (0:Int) < sws.confidence) :
    ∃ sws ∈ l, pickBest l = (sws.service, sws.confidence) := by
  obtain ⟨sws0, hm0, hpos⟩ := h
  rcases pickBestFrom_cases l Service.zero 0 with hz | ⟨sws, hm, he⟩
  · exfalso
    have h2 := (pickBestFrom_ge l Service.zero 0).2 sws0 hm0
    rw [hz] at h2
    simp at h2
    omega
  · exact ⟨sws, hm, he⟩

/- ===== grouping-map invariants ===== -/

theorem keysOf_cons (kv : String × List SWS) (rest : List (String × List SWS)) :
    keysOf (kv :: rest) = kv.1 :: keysOf rest := rfl

theorem keysOf_insertGrouped (m : List (String × List SWS)) (k : String) (v : SWS) :
    keysOf (insertGrouped m k v) =
      if k ∈ keysOf m then keysOf m else keysOf m ++ [k] := by
  induction m with
  | nil => simp [insertGrouped, keysOf]
  | cons kv rest ih =>
    obtain ⟨k', vs⟩ := kv
    by_cases h : k' = k
    · subst h
      rw [show insertGrouped ((k', vs) :: rest) k' v = (k', vs ++ [v]) :: rest by
        simp [insertGrouped]]
      simp [keysOf]
    · rw [show insertGrouped ((k', vs) :: rest) k v = (k', vs) :: insertGrouped rest k v by
        simp [insertGrouped, h]]
      rw [keysOf_cons, keysOf_cons, ih]
      have hne : ¬ k = k' := fun hh => h hh.symm
      by_cases hk : k ∈ keysOf rest
      · rw [if_pos hk, if_pos (by simp [List.mem_cons, hk])]
      · rw [if_neg hk, if_neg (by simp [List.mem_cons, hne, hk])]
        simp

theorem insertGrouped_forall {Q : String → SWS → Prop} :
    ∀ (m : List (String × List SWS)) (k : String) (v : SWS),
      (∀ kv ∈ m, kv.2 ≠ [] ∧ ∀ sws ∈ kv.2, Q kv.1 sws) → Q k v →
      ∀ kv ∈ insertGrouped m k v, kv.2 ≠ [] ∧ ∀ sws ∈ kv.2, Q kv.1 sws := by
  intro m
  induction m with
  | nil =>
    intro k v _ hv kv hm
    simp [insertGrouped] at hm
    subst hm
    refine ⟨by simp, ?_⟩
    intro sws hs
    simp at hs
    subst hs
    exact hv
  | cons kv0 rest ih =>
    intro k v h hv kv hm
    obtain ⟨k', vs⟩ := kv0
    by_cases hkk : k' = k
    · subst hkk
      rw [show insertGrouped ((k', vs) :: rest) k' v = (k', vs ++ [v]) :: rest by
        simp [insertGrouped]] at hm
      rcases List.mem_cons.mp hm with he | hm'
      · subst he
        refine ⟨by simp, ?_⟩
        intro sws hs
        rcases List.mem_append.mp hs with h1 | h2
        · exact (h (k', vs) (List.mem_cons_self _ _)).2 sws h1
        · simp at h2
          subst h2
          exact hv
      · exact h kv (List.mem_cons_of_mem _ hm')
    · rw [show insertGrouped ((k', vs) :: rest) k v = (k', vs) :: insertGrouped rest k v by
        simp [insertGrouped, hkk]] at hm
      rcases List.mem_cons.mp hm with he | hm'
      · subst he
        exact h (k', vs) (List.mem_cons_self _ _)
      · exact ih k v (fun kv2 hk2 => h kv2 (List.mem_cons_of_mem _ hk2)) hv kv hm'

theorem MapOK_insertGrouped {P : Int → Prop} {m : List (String × List SWS)}
    {k : String} {v : SWS} (h : MapOK P m) (hk : v.service.key = k)
    (hbp : v.service.buildPath ≠ "") (hP : P v.confidence) :
    MapOK P (insertGrouped m k v) := by
  refine ⟨?_, ?_⟩
  · rw [keysOf_insertGrouped]
    by_cases hmem : k ∈ keysOf m
    · rw [if_pos hmem]; exact h.1
    · rw [if_neg hmem]
      simp [List.nodup_append, h.1, hmem]
  · exact @insertGrouped_forall
      (fun key sws => sws.service.key = key ∧ sws.service.buildPath ≠ "" ∧ P sws.confidence)
      m k v h.2 ⟨hk, hbp, hP⟩

theorem MapOK_addService {P : Int → Prop} {m : List (String × List SWS)}
    {conf : Int} {s : Service} (h : MapOK P m) (hP : P conf) :
    MapOK P (addService m conf s) := by
  unfold addService
  by_cases hbp : s.buildPath = ""
  · simpa [hbp] using h
  · rw [if_neg hbp]
    exact MapOK_insertGrouped h rfl hbp hP

theorem MapOK_addServices {P : Int → Prop} (conf : Int) (hP : P conf) :
    ∀ (ss : List Service) (m : List (String × List SWS)),
      MapOK P m → MapOK P (addServices conf m ss) := by
  intro ss
  induction ss with
  | nil => intro m h; exact h
  | cons s rest ih => intro m h; exact ih _ (MapOK_addService h hP)

theorem MapOK_buildMapFrom {P : Int → Prop} :
    ∀ (results : List SignalResult) (m : List (String × List SWS)),
      MapOK P m → (∀ r ∈ results, P r.confidence) →
      MapOK P (buildMapFrom m results) := by
  intro results
  induction results with
  | nil => intro m h _; exact h
  | cons r rest ih =>
    intro m h hres
    exact ih _ (MapOK_addServices r.confidence (hres r (List.mem_cons_self _ _)) r.services m h)
      (fun r' hr => hres r' (List.mem_cons_of_mem _ hr))

theorem MapOK_buildServiceMap {P : Int → Prop} (results : List SignalResult)
    (hres : ∀ r ∈ results, P r.confidence) : MapOK P (buildServiceMap results) :=
  MapOK_buildMapFrom results [] ⟨List.nodup_nil, by simp⟩ hres

theorem mergeGroup_fields (l : List SWS) :
    mergeGroup l = { (pickBest l).1 with configs := dedupConfigs (flatConfigs l) } := rfl

/- ===== C1 ===== -/

/-- C1 counterexample: with an explicit (95) candidate named api and a generic
(50) candidate named pkg sharing build path p, the triangulator emits both
services: the generic signal's candidate appears as an extra output Service,
contradicting the claimed explicit-dominant merge over the pooled group. -/
theorem triangulate_generic_spawns_extra_service :
    triangulateServices c1in = [c1Explicit, c1Generic] ∧
      c1Generic ∈ triangulateServices c1in := by
  decide

/-- C1 amended: the triangulator merges per (build_path, name) key, not per
pooled build_path group: in every key group holding a candidate of confidence
at least 80, the merged Service's fields come from such a candidate and the
group's ConfigRefs are united, deduplicated by (type, path); generic
candidates with a different name in the same build path keep their own
output Service. -/
theorem triangulate_explicit_base_per_key (results : List SignalResult)
    (kv : String × List SWS) (_hkv : kv ∈ buildServiceMap results)
    (hex : ∃ sws ∈ kv.2, (80:Int) ≤ sws.confidence) :
    ∃ sws ∈ kv.2, (80:Int) ≤ sws.confidence ∧
      mergeGroup kv.2 = { sws.service with configs := dedupConfigs (flatConfigs kv.2) } := by
  obtain ⟨sws, hm, he, h80⟩ := pickBest_ge80 kv.2 hex
  refine ⟨sws, hm, h80, ?_⟩
  rw [mergeGroup_fields, he]

theorem triangulate_explicit_base_per_key_witness :
    kvC1 ∈ buildServiceMap c1in2 ∧ (∃ sws ∈ kvC1.2, (80:Int) ≤ sws.confidence) ∧
      ∃ sws ∈ kvC1.2, (80:Int) ≤ sws.confidence ∧
        mergeGroup kvC1.2 =
          { sws.service with configs := dedupConfigs (flatConfigs kvC1.2) } :=
  ⟨by decide, by decide,
    triangulate_explicit_base_per_key c1in2 kvC1 (by decide) (by decide)⟩

/- ===== C2 ===== -/

theorem noBuild_mem (results : List SignalResult) (s : Service)
    (h : s ∈ results.foldr
      (fun r acc => r.services.filter (fun s => s.buildPath = "") ++ acc) []) :
    s.buildPath = "" := by
  induction results with
  | nil => simp at h
  | cons r rest ih =>
    simp only [List.foldr_cons] at h
    rcases List.mem_append.mp h with h1 | h2
    · simpa using List.of_mem_filter h1
    · exact ih h2

theorem mergeGroup_bp_or_key (k : String) (l : List SWS)
    (hall : ∀ sws ∈ l, sws.service.key = k) :
    (mergeGroup l).buildPath = "" ∨ (mergeGroup l).key = k := by
  rcases pickBestFrom_cases l Service.zero 0 with hz | ⟨sws, hm, he⟩
  · left
    have h1 : (mergeGroup l).buildPath = (pickBest l).1.buildPath := rfl
    rw [h1, show pickBest l = (Service.zero, 0) from hz]
    rfl
  · right
    have h1 : (mergeGroup l).key = (pickBest l).1.key := rfl
    rw [h1, show pickBest l = (sws.service, sws.confidence) from he]
    exact hall sws hm

theorem key_of_pair_eq {a b : Service}
    (h : (a.buildPath, a.name) = (b.buildPath, b.name)) : a.key = b.key := by
  have h1 : a.buildPath = b.buildPath := congrArg Prod.fst h
  have h2 : a.name = b.name := congrArg Prod.snd h
  unfold Service.key
  rw [h1, h2]

/-- C2: any two distinct services in the triangulator's output have distinct
(build_path, name) pairs unless both build paths are empty. -/
theorem triangulate_distinct_pairs (results : List SignalResult) :
    (triangulateServices results).Pairwise (fun a b =>
      (a.buildPath, a.name) = (b.buildPath, b.name) →
        a.buildPath = "" ∧ b.buildPath = "") := by
  have hOK := @MapOK_buildServiceMap (fun _ => True) results (fun r _ => trivial)
  unfold triangulateServices
  rw [List.pairwise_append]
  refine ⟨?_, ?_, ?_⟩
  · rw [List.pairwise_map]
    have hnd : (keysOf (buildServiceMap results)).Nodup := hOK.1
    have hpw : (buildServiceMap results).Pairwise (fun kv kv' => kv.1 ≠ kv'.1) := by
      unfold keysOf at hnd
      exact (List.pairwise_map.mp hnd)
    refine hpw.imp_of_mem ?_
    intro kv kv' hma hmb hne hpair
    have hallA : ∀ sws ∈ kv.2, sws.service.key = kv.1 :=
      fun sws hs => ((hOK.2 kv hma).2 sws hs).1
    have hallB : ∀ sws ∈ kv'.2, sws.service.key = kv'.1 :=
      fun sws hs => ((hOK.2 kv' hmb).2 sws hs).1
    rcases mergeGroup_bp_or_key kv.1 kv.2 hallA with hA | hA
    · have hbp : (mergeGroup kv.2).buildPath = (mergeGroup kv'.2).buildPath :=
        congrArg Prod.fst hpair
      exact ⟨hA, by rw [← hbp]; exact hA⟩
    · rcases mergeGroup_bp_or_key kv'.1 kv'.2 hallB with hB | hB
      · have hbp : (mergeGroup kv.2).buildPath = (mergeGroup kv'.2).buildPath :=
          congrArg Prod.fst hpair
        exact ⟨by rw [hbp]; exact hB, hB⟩
      · exact absurd (by rw [← hA, ← hB]; exact key_of_pair_eq hpair) hne
  · refine List.pairwise_of_forall_mem_list ?_
    intro a ha b hb _
    exact ⟨noBuild_mem results a ha, noBuild_mem results b hb⟩
  · intro a ha b hb hpair
    have hbb := noBuild_mem results b hb
    have hab : a.buildPath = b.buildPath := congrArg Prod.fst hpair
    exact ⟨by rw [hab]; exact hbb, hbb⟩

/- ===== config dedup facts ===== -/

theorem insertConfig_notmem (acc : List ConfigRef) (c : ConfigRef)
    (h : c.key ∉ acc.map ConfigRef.key) : insertConfig acc c = acc ++ [c] := by
  unfold insertConfig
  have hany : (acc.any fun c' => c'.key = c.key) = false := by
    rw [List.any_eq_false]
    intro c' hm
    simp only [decide_eq_true_eq]
    intro he
    exact h (he ▸ List.mem_map_of_mem ConfigRef.key hm)
  rw [hany]
  simp

theorem insertConfig_keyNodup (acc : List ConfigRef) (c : ConfigRef)
    (h : keyNodupC acc) : keyNodupC (insertConfig acc c) := by
  unfold insertConfig
  by_cases hany : (acc.any fun c' => c'.key = c.key) = true
  · rw [hany]
    simpa using h
  · rw [Bool.not_eq_true] at hany
    rw [hany]
    simp only [Bool.false_eq_true, if_false]
    unfold keyNodupC at h ⊢
    rw [List.map_append, List.map_cons, List.map_nil, List.nodup_append]
    refine ⟨h, List.nodup_singleton _, ?_⟩
    intro k hk hk2
    simp only [List.mem_singleton] at hk2
    subst hk2
    rw [List.any_eq_false] at hany
    obtain ⟨c', hm, he⟩ := List.mem_map.mp hk
    exact hany c' hm (by simp [he])

theorem dedupFrom_keyNodup :
    ∀ (l acc : List ConfigRef), keyNodupC acc → keyNodupC (dedupFrom acc l) := by
  intro l
  induction l with
  | nil => intro acc h; exact h
  | cons c rest ih => intro acc h; exact ih _ (insertConfig_keyNodup acc c h)

theorem dedupConfigs_keyNodup (l : List ConfigRef) : keyNodupC (dedupConfigs l) :=
  dedupFrom_keyNodup l [] (by simp [keyNodupC])

theorem dedupFrom_of_keyNodup :
    ∀ (l acc : List ConfigRef), keyNodupC (acc ++ l) → dedupFrom acc l = acc ++ l := by
  intro l
  induction l with
  | nil => intro acc _; simp [dedupFrom]
  | cons c rest ih =>
    intro acc h
    have hnot : c.key ∉ acc.map ConfigRef.key := by
      intro hmem
      unfold keyNodupC at h
      rw [List.map_append] at h
      rcases List.nodup_append.mp h with ⟨_, _, hdisj⟩
      exact hdisj hmem (by simp)
    show dedupFrom (insertConfig acc c) rest = acc ++ c :: rest
    rw [insertConfig_notmem acc c hnot]
    have hrec := ih (acc ++ [c]) (by simpa [keyNodupC] using h)
    simpa using hrec

theorem dedupConfigs_self (l : List ConfigRef) (h : keyNodupC l) : dedupConfigs l = l := by
  simpa using dedupFrom_of_keyNodup l [] (by simpa using h)

/- ===== singleton groups and the refeed map ===== -/

theorem mergeGroup_singleton (s : Service) (c : Int) (hc : (0:Int) < c)
    (hnd : keyNodupC s.configs) : mergeGroup [⟨s, c⟩] = s := by
  have hpick : pickBest [⟨s, c⟩] = (s, c) := by
    unfold pickBest
    rw [pickBestFrom_cons_pos _ _ _ _ hc]
    rfl
  rw [mergeGroup_fields, hpick]
  have hflat : flatConfigs [⟨s, c⟩] = s.configs := by simp [flatConfigs]
  rw [hflat, dedupConfigs_self s.configs hnd]

theorem merged_props (results : List SignalResult)
    (hres : ∀ r ∈ results, (0:Int) < r.confidence) :
    ∀ kv ∈ buildServiceMap results,
      (mergeGroup kv.2).buildPath ≠ "" ∧ (mergeGroup kv.2).key = kv.1 ∧
        keyNodupC (mergeGroup kv.2).configs := by
  intro kv hm
  have hOK := @MapOK_buildServiceMap (fun c => (0:Int) < c) results hres
  obtain ⟨hne, hall⟩ := hOK.2 kv hm
  have hex : ∃ sws ∈ kv.2, (0:Int) < sws.confidence := by
    obtain ⟨sws0, hmem0⟩ := List.exists_mem_of_ne_nil kv.2 hne
    exact ⟨sws0, hmem0, (hall sws0 hmem0).2.2⟩
  obtain ⟨sws, hmem, he⟩ := pickBest_pos_mem kv.2 hex
  have hb : (mergeGroup kv.2).buildPath = sws.service.buildPath := by
    have h1 : (mergeGroup kv.2).buildPath = (pickBest kv.2).1.buildPath := rfl
    rw [h1, he]
  have hk : (mergeGroup kv.2).key = sws.service.key := by
    have h1 : (mergeGroup kv.2).key = (pickBest kv.2).1.key := rfl
    rw [h1, he]
  refine ⟨?_, ?_, ?_⟩
  · rw [hb]; exact (hall sws hmem).2.1
  · rw [hk]; exact (hall sws hmem).1
  · exact dedupConfigs_keyNodup _

theorem insertGrouped_append_notmem :
    ∀ (m : List (String × List SWS)) (k : String) (v : SWS), k ∉ keysOf m →
      insertGrouped m k v = m ++ [(k, [v])] := by
  intro m
  induction m with
  | nil => intro k v _; rfl
  | cons kv rest ih =>
    intro k v hk
    obtain ⟨k', vs⟩ := kv
    rw [keysOf_cons, List.mem_cons] at hk
    push_neg at hk
    obtain ⟨h1, h2⟩ := hk
    have hne : ¬ (k' = k) := fun hh => h1 hh.symm
    rw [show insertGrouped ((k', vs) :: rest) k v = (k', vs) :: insertGrouped rest k v by
      simp [insertGrouped, hne]]
    rw [ih k v h2]
    simp

theorem buildMapFrom_refeed (cf : Service → Int) :
    ∀ (xs : List Service) (m : List (String × List SWS)),
      (∀ x ∈ xs, x.buildPath ≠ "" → x.key ∉ keysOf m) →
      xs.Pairwise (fun a b => a.buildPath ≠ "" → b.buildPath ≠ "" → a.key ≠ b.key) →
      buildMapFrom m (refeed cf xs) =
        m ++ (xs.filter (fun s => s.buildPath ≠ "")).map (fun s => (s.key, [⟨s, cf s⟩])) := by
  intro xs
  induction xs with
  | nil => intro m _ _; simp [refeed, buildMapFrom]
  | cons x rest ih =>
    intro m hnew hpw
    have hstep : buildMapFrom m (refeed cf (x :: rest)) =
        buildMapFrom (addService m (cf x) x) (refeed cf rest) := rfl
    rw [hstep]
    obtain ⟨hhead, htail⟩ := List.pairwise_cons.mp hpw
    by_cases hbp : x.buildPath = ""
    · rw [show addService m (cf x) x = m by simp [addService, hbp]]
      rw [ih m (fun y hy => hnew y (List.mem_cons_of_mem _ hy)) htail]
      rw [show (x :: rest).filter (fun s => s.buildPath ≠ "") =
        rest.filter (fun s => s.buildPath ≠ "") by simp [List.filter_cons, hbp]]
    · rw [show addService m (cf x) x = insertGrouped m x.key (SWS.mk x (cf x)) by
        simp [addService, hbp]]
      rw [insertGrouped_append_notmem m x.key (SWS.mk x (cf x))
        (hnew x (List.mem_cons_self _ _) hbp)]
      have hnew' : ∀ y ∈ rest, y.buildPath ≠ "" →
          y.key ∉ keysOf (m ++ [(x.key, [SWS.mk x (cf x)])]) := by
        intro y hy hbpy
        rw [show keysOf (m ++ [(x.key, [SWS.mk x (cf x)])]) = keysOf m ++ [x.key] by
          simp [keysOf]]
        rw [List.mem_append]
        push_neg
        refine ⟨hnew y (List.mem_cons_of_mem _ hy) hbpy, ?_⟩
        simp only [List.mem_singleton]
        exact fun he => (hhead y hy hbp hbpy) he.symm
      rw [ih (m ++ [(x.key, [SWS.mk x (cf x)])]) hnew' htail]
      rw [show (x :: rest).filter (fun s => s.buildPath ≠ "") =
        x :: rest.filter (fun s => s.buildPath ≠ "") by simp [List.filter_cons, hbp]]
      simp

theorem refeed_noBuild (cf : Service → Int) :
    ∀ (L : List Service),
      (refeed cf L).foldr
        (fun r acc => r.services.filter (fun s => s.buildPath = "") ++ acc) [] =
        L.filter (fun s => s.buildPath = "") := by
  intro L
  induction L with
  | nil => rfl
  | cons x rest ih =>
    have hstep : (refeed cf (x :: rest)).foldr
        (fun r acc => r.services.filter (fun s => s.buildPath = "") ++ acc) [] =
        ([x].filter (fun s => s.buildPath = "")) ++
          (refeed cf rest).foldr
            (fun r acc => r.services.filter (fun s => s.buildPath = "") ++ acc) [] := rfl
    rw [hstep, ih]
    by_cases hbp : x.buildPath = ""
    · simp [List.filter_cons, hbp]
    · simp [List.filter_cons, hbp]

theorem filter_all_true {α : Type} (p : α → Bool) :
    ∀ (l : List α), (∀ a ∈ l, p a = true) → l.filter p = l := by
  intro l
  induction l with
  | nil => intro _; rfl
  | cons x rest ih =>
    intro h
    rw [List.filter_cons, if_pos (h x (List.mem_cons_self _ _))]
    rw [ih (fun a ha => h a (List.mem_cons_of_mem _ ha))]

theorem filter_all_false {α : Type} (p : α → Bool) :
    ∀ (l : List α), (∀ a ∈ l, p a = false) → l.filter p = [] := by
  intro l
  induction l with
  | nil => intro _; rfl
  | cons x rest ih =>
    intro h
    rw [List.filter_cons, if_neg (by simp [h x (List.mem_cons_self _ _)])]
    exact ih (fun a ha => h a (List.mem_cons_of_mem _ ha))

/-- C8: triangulation is idempotent: feeding the output back, each Service as
its own one-element group at any positive confidence, returns the same list.
The hypotheses record that all confidences involved are positive, as every
registered signal's static confidence (50 to 95) is. -/
theorem triangulate_idempotent (results : List SignalResult) (cf : Service → Int)
    (hcf : ∀ s, (0:Int) < cf s) (hres : ∀ r ∈ results, (0:Int) < r.confidence) :
    triangulateServices (refeed cf (triangulateServices results)) =
      triangulateServices results := by
  have hprops := merged_props results hres
  have hOK := @MapOK_buildServiceMap (fun c => (0:Int) < c) results hres
  obtain ⟨A, hA⟩ : ∃ A, A = (buildServiceMap results).map (fun kv => mergeGroup kv.2) :=
    ⟨_, rfl⟩
  obtain ⟨B, hB⟩ : ∃ B, B = results.foldr
      (fun r acc => r.services.filter (fun s => s.buildPath = "") ++ acc) [] := ⟨_, rfl⟩
  have hL : triangulateServices results = A ++ B := by rw [hA, hB]; rfl
  have hAfacts : ∀ a ∈ A, a.buildPath ≠ "" ∧ keyNodupC a.configs := by
    intro a ha
    rw [hA] at ha
    obtain ⟨kv, hkv, rfl⟩ := List.mem_map.mp ha
    exact ⟨(hprops kv hkv).1, (hprops kv hkv).2.2⟩
  have hBfacts : ∀ b ∈ B, b.buildPath = "" := by
    intro b hb
    rw [hB] at hb
    exact noBuild_mem results b hb
  have hApw : A.Pairwise (fun a b => a.key ≠ b.key) := by
    rw [hA, List.pairwise_map]
    have hnd : (keysOf (buildServiceMap results)).Nodup := hOK.1
    have hpw : (buildServiceMap results).Pairwise (fun kv kv' => kv.1 ≠ kv'.1) := by
      unfold keysOf at hnd
      exact List.pairwise_map.mp hnd
    refine hpw.imp_of_mem ?_
    intro kv kv' hma hmb hne
    rw [(hprops kv hma).2.1, (hprops kv' hmb).2.1]
    exact hne
  have hLpw : (A ++ B).Pairwise
      (fun a b => a.buildPath ≠ "" → b.buildPath ≠ "" → a.key ≠ b.key) := by
    rw [List.pairwise_append]
    refine ⟨hApw.imp ?_, ?_, ?_⟩
    · intro a b h
      exact fun _ _ => h
    · refine List.pairwise_of_forall_mem_list ?_
      intro a ha b hb hbpa
      exact absurd (hBfacts a ha) hbpa
    · intro a ha b hb _ hbpb
      exact absurd (hBfacts b hb) hbpb
  have hfA1 : A.filter (fun s => s.buildPath ≠ "") = A :=
    filter_all_true _ A (fun a ha => by simp [(hAfacts a ha).1])
  have hfA2 : A.filter (fun s => s.buildPath = "") = [] :=
    filter_all_false _ A (fun a ha => by simp [(hAfacts a ha).1])
  have hfB1 : B.filter (fun s => s.buildPath ≠ "") = [] :=
    filter_all_false _ B (fun b hb => by simp [hBfacts b hb])
  have hfB2 : B.filter (fun s => s.buildPath = "") = B :=
    filter_all_true _ B (fun b hb => by simp [hBfacts b hb])
  rw [hL]
  have hunf : triangulateServices (refeed cf (A ++ B)) =
      (buildMapFrom [] (refeed cf (A ++ B))).map (fun kv => mergeGroup kv.2) ++
        (refeed cf (A ++ B)).foldr
          (fun r acc => r.services.filter (fun s => s.buildPath = "") ++ acc) [] := rfl
  rw [hunf]
  rw [buildMapFrom_refeed cf (A ++ B) [] (by intro x hx hbp; simp [keysOf]) hLpw]
  rw [refeed_noBuild cf (A ++ B)]
  rw [List.filter_append, hfA1, hfB1, List.append_nil]
  rw [List.filter_append, hfA2, hfB2, List.nil_append, List.nil_append, List.map_map]
  congr 1
  have hsing : ∀ a ∈ A,
      ((fun kv => mergeGroup kv.2) ∘ (fun s => (s.key, [SWS.mk s (cf s)]))) a = id a := by
    intro a ha
    show mergeGroup [SWS.mk a (cf a)] = a
    exact mergeGroup_singleton a (cf a) (hcf a) (hAfacts a ha).2
  rw [List.map_congr_left hsing, List.map_id]

theorem triangulate_idempotent_witness :
    (∀ _s : Service, (0:Int) < 85) ∧ (∀ r ∈ demoResults, (0:Int) < r.confidence) ∧
      triangulateServices (refeed (fun _ => (85:Int)) (triangulateServices demoResults)) =
        triangulateServices demoResults :=
  ⟨fun _ => by decide, by decide,
    triangulate_idempotent demoResults (fun _ => (85:Int))
      (fun _ => show (0:Int) < 85 by decide) (by decide)⟩

/- ===== C6 ===== -/

theorem genStep_fold :
    ∀ (gens : List GenOutcome) (rs : List SignalResult) (c : Option String),
      gens.foldl genStep (rs, c) = (rs ++ producedResults gens, critAfter c gens) := by
  intro gens
  induction gens with
  | nil => intro rs c; simp [producedResults, critAfter]
  | cons g rest ih =>
    intro rs c
    cases hg : g.result with
    | error e =>
      have h1 : genStep (rs, c) g = (rs, updateCrit c e) := by simp [genStep, hg]
      rw [List.foldl_cons, h1, ih]
      have h2 : producedResults (g :: rest) = producedResults rest := by
        simp [producedResults, hg]
      have h3 : critAfter c (g :: rest) = critAfter (updateCrit c e) rest := by
        simp [critAfter, hg]
      rw [h2, h3]
    | ok svcs =>
      by_cases hemp : svcs.isEmpty = true
      · have hnil : svcs = [] := by simpa using hemp
        have h1 : genStep (rs, c) g = (rs, c) := by simp [genStep, hg, hnil]
        rw [List.foldl_cons, h1, ih]
        have h2 : producedResults (g :: rest) = producedResults rest := by
          simp [producedResults, hg, hnil]
        have h3 : critAfter c (g :: rest) = critAfter c rest := by
          simp [critAfter, hg]
        rw [h2, h3]
      · have hnnil : ¬ svcs = [] := by simpa using hemp
        have h1 : genStep (rs, c) g = (rs ++ [⟨svcs, g.confidence⟩], c) := by
          simp [genStep, hg, hnnil]
        rw [List.foldl_cons, h1, ih]
        have h2 : producedResults (g :: rest) =
            ⟨svcs, g.confidence⟩ :: producedResults rest := by
          simp [producedResults, hg, hnnil]
        have h3 : critAfter c (g :: rest) = critAfter c rest := by
          simp [critAfter, hg]
        rw [h2, h3]
        simp

theorem foldl_updateCrit_isSome :
    ∀ (errs : List String) (c : Option String),
      (errs.foldl updateCrit c).isSome = true ↔
        c.isSome = true ∨ ∃ e ∈ errs, isCriticalError e = true := by
  intro errs
  induction errs with
  | nil => intro c; simp
  | cons e rest ih =>
    intro c
    rw [List.foldl_cons, ih]
    constructor
    · rintro (h1 | ⟨e', hm, hcrit⟩)
      · unfold updateCrit at h1
        by_cases hc : isCriticalError e = true
        · right; exact ⟨e, List.mem_cons_self _ _, hc⟩
        · rw [if_neg hc] at h1
          left; exact h1
      · right; exact ⟨e', List.mem_cons_of_mem _ hm, hcrit⟩
    · rintro (h1 | ⟨e', hm, hcrit⟩)
      · left
        unfold updateCrit
        by_cases hc : isCriticalError e = true
        · rw [if_pos hc]; rfl
        · rw [if_neg hc]; exact h1
      · rcases List.mem_cons.mp hm with he | hm'
        · subst he
          left
          unfold updateCrit
          rw [if_pos hcrit]
          rfl
        · right; exact ⟨e', hm', hcrit⟩

theorem walkCrit_isSome (errs : List String) :
    (walkCrit errs).isSome = true ↔ ∃ e ∈ errs, isCriticalError e = true := by
  unfold walkCrit
  rw [foldl_updateCrit_isSome]
  simp

theorem critAfter_isSome :
    ∀ (gens : List GenOutcome) (c : Option String),
      (critAfter c gens).isSome = true ↔
        c.isSome = true ∨
          ∃ g ∈ gens, ∃ e, g.result = .error e ∧ isCriticalError e = true := by
  intro gens
  induction gens with
  | nil => intro c; simp [critAfter]
  | cons g rest ih =>
    intro c
    cases hg : g.result with
    | error e =>
      have hstep : critAfter c (g :: rest) = critAfter (updateCrit c e) rest := by
        simp [critAfter, hg]
      rw [hstep, ih]
      constructor
      · rintro (h1 | hex)
        · unfold updateCrit at h1
          by_cases hc : isCriticalError e = true
          · right; exact ⟨g, List.mem_cons_self _ _, e, hg, hc⟩
          · rw [if_neg hc] at h1
            left; exact h1
        · obtain ⟨g', hm, e', he', hc'⟩ := hex
          right; exact ⟨g', List.mem_cons_of_mem _ hm, e', he', hc'⟩
      · rintro (h1 | hex)
        · left
          unfold updateCrit
          by_cases hc : isCriticalError e = true
          · rw [if_pos hc]; rfl
          · rw [if_neg hc]; exact h1
        · obtain ⟨g', hm, e', he', hc'⟩ := hex
          rcases List.mem_cons.mp hm with hgg | hm'
          · subst hgg
            rw [hg] at he'
            injection he' with hee
            subst hee
            left
            unfold updateCrit
            rw [if_pos hc']
            rfl
          · right; exact ⟨g', hm', e', he', hc'⟩
    | ok svcs =>
      have hstep : critAfter c (g :: rest) = critAfter c rest := by
        simp [critAfter, hg]
      rw [hstep, ih]
      constructor
      · rintro (h1 | hex)
        · left; exact h1
        · obtain ⟨g', hm, e', he', hc'⟩ := hex
          right; exact ⟨g', List.mem_cons_of_mem _ hm, e', he', hc'⟩
      · rintro (h1 | hex)
        · left; exact h1
        · obtain ⟨g', hm, e', he', hc'⟩ := hex
          rcases List.mem_cons.mp hm with hgg | hm'
          · subst hgg
            rw [hg] at he'
            cases he'
          · right; exact ⟨g', hm', e', he', hc'⟩

theorem critRecorded_iff (walkErrs : List String) (gens : List GenOutcome) :
    (critAfter (walkCrit walkErrs) gens).isSome = true ↔
      (∃ e ∈ walkErrs, isCriticalError e = true) ∨
        ∃ g ∈ gens, ∃ e, g.result = .error e ∧ isCriticalError e = true := by
  rw [critAfter_isSome, walkCrit_isSome]

theorem producedResults_empty_iff :
    ∀ (gens : List GenOutcome),
      producedResults gens = [] ↔
        ∀ g ∈ gens, ∀ svcs, g.result = .ok svcs → svcs = [] := by
  intro gens
  induction gens with
  | nil => simp [producedResults]
  | cons g rest ih =>
    cases hg : g.result with
    | error e =>
      have hstep : producedResults (g :: rest) = producedResults rest := by
        simp [producedResults, hg]
      rw [hstep, ih]
      constructor
      · intro h g' hm svcs he
        rcases List.mem_cons.mp hm with hgg | hm'
        · subst hgg
          rw [hg] at he
          cases he
        · exact h g' hm' svcs he
      · intro h g' hm svcs he
        exact h g' (List.mem_cons_of_mem _ hm) svcs he
    | ok svcs0 =>
      by_cases hemp : svcs0.isEmpty = true
      · have hnil : svcs0 = [] := by simpa using hemp
        have hstep : producedResults (g :: rest) = producedResults rest := by
          simp [producedResults, hg, hnil]
        rw [hstep, ih]
        constructor
        · intro h g' hm svcs he
          rcases List.mem_cons.mp hm with hgg | hm'
          · subst hgg
            rw [hg] at he
            injection he with hee
            rw [← hee]
            exact hnil
          · exact h g' hm' svcs he
        · intro h g' hm svcs he
          exact h g' (List.mem_cons_of_mem _ hm) svcs he
      · have hnnil : ¬ svcs0 = [] := by simpa using hemp
        have hstep : producedResults (g :: rest) =
            ⟨svcs0, g.confidence⟩ :: producedResults rest := by
          simp [producedResults, hg, hnnil]
        rw [hstep]
        constructor
        · intro h
          cases h
        · intro h
          exfalso
          have := h g (List.mem_cons_self _ _) svcs0 hg
          rw [this] at hemp
          simp at hemp

theorem Discover_eq_some (walkErrs : List String) (gens : List GenOutcome) (e : String)
    (he : critAfter (walkCrit walkErrs) gens = some e) :
    Discover walkErrs gens =
      if (producedResults gens).isEmpty then
        .error ("service discovery failed with authentication or permission error: " ++ e)
      else .ok (triangulateServices (producedResults gens)) := by
  unfold Discover
  rw [genStep_fold gens [] (walkCrit walkErrs)]
  simp only [List.nil_append]
  rw [he]

theorem Discover_eq_none (walkErrs : List String) (gens : List GenOutcome)
    (he : critAfter (walkCrit walkErrs) gens = none) :
    Discover walkErrs gens = .ok (triangulateServices (producedResults gens)) := by
  unfold Discover
  rw [genStep_fold gens [] (walkCrit walkErrs)]
  simp only [List.nil_append]
  rw [he]

/-- C6: Discover returns an error exactly when a critical error was recorded
during the walk or during generation and no signal produced any services;
one non-empty generated service list makes it succeed despite the errors. -/
theorem discover_error_iff (walkErrs : List String) (gens : List GenOutcome) :
    isErr (Discover walkErrs gens) = true ↔
      ((∃ e ∈ walkErrs, isCriticalError e = true) ∨
        (∃ g ∈ gens, ∃ e, g.result = .error e ∧ isCriticalError e = true)) ∧
      (∀ g ∈ gens, ∀ svcs, g.result = .ok svcs → svcs = []) := by
  cases hca : critAfter (walkCrit walkErrs) gens with
  | none =>
    rw [Discover_eq_none walkErrs gens hca]
    simp only [isErr]
    constructor
    · intro h
      cases h
    · rintro ⟨hcrit, hall⟩
      have : (critAfter (walkCrit walkErrs) gens).isSome = true :=
        (critRecorded_iff walkErrs gens).mpr hcrit
      rw [hca] at this
      cases this
  | some e =>
    rw [Discover_eq_some walkErrs gens e hca]
    by_cases hemp : (producedResults gens).isEmpty = true
    · rw [if_pos hemp]
      simp only [isErr]
      constructor
      · intro _
        refine ⟨(critRecorded_iff walkErrs gens).mp (by rw [hca]; rfl), ?_⟩
        exact (producedResults_empty_iff gens).mp (by simpa using hemp)
      · intro _
        trivial
    · rw [if_neg hemp]
      simp only [isErr]
      constructor
      · intro h
        cases h
      · rintro ⟨hcrit, hall⟩
        exfalso
        apply hemp
        simp [(producedResults_empty_iff gens).mpr hall]
